import Mathlib

/-!
Verification development for the `pydgeot_jinja` plugin
(`pydgeot/plugins/jinja/__init__.py`).

The plugin is a thin adapter: it parses a Jinja template, extracts
constant-assignment and two-argument call patterns from the AST, registers
dependency/context metadata with a host application, and renders output files.
We embed the plugin's data model and its `prepare` / `generate` /
`can_process` / `add_set_context` / `_get_const_vars` /
`_get_context_requests` operations as executable Lean definitions and prove
the specification claims about them.

External collaborators (the Jinja parser, the host's source database, path
helpers, the renderer) are modelled as an abstract `Env` of functions, since
the specification treats them as externally owned.  Python dictionaries are
modelled as association lists with insertion-order update semantics, which is
exactly the observable behaviour of `dict` in the source.
-/

/-- A source or target file path (Python `str`). -/
abbrev FPath := String

/-- A Python constant value as it appears in `jinja2.nodes.Const`:
`None`, booleans, integers and strings cover the constants the template
language produces. -/
inductive Value where
  | none
  | bool (b : Bool)
  | int (n : Int)
  | str (s : String)
deriving DecidableEq

/-- Python truthiness (`if not template_only` in `prepare`). -/
def Value.truthy : Value → Bool
  | .none => false
  | .bool b => b
  | .int n => decide (n ≠ 0)
  | .str s => decide (s ≠ "")

/-- Lookup in an association list modelling a Python `dict`
(first entry with the key wins; a well-formed dict has unique keys). -/
def lookupD {α β : Type} [DecidableEq α] (k : α) : List (α × β) → Option β
  | [] => Option.none
  | q :: t => if q.1 = k then some q.2 else lookupD k t

/-- Embeds `d[k] = v` on a Python `dict`: update the existing entry in place,
else append (insertion order is preserved, as in CPython). -/
def dictSet {α β : Type} [DecidableEq α] (l : List (α × β)) (k : α) (v : β) :
    List (α × β) :=
  match l with
  | [] => [(k, v)]
  | q :: t => if q.1 = k then (k, v) :: t else q :: dictSet t k v

/-- Embeds `del d[k]` on a Python `dict`: drop the entry with key `k`. -/
def dictRemove {α β : Type} [DecidableEq α] (k : α) (l : List (α × β)) :
    List (α × β) :=
  l.filter (fun q => decide (q.1 ≠ k))

/-- The keys of an association list. -/
def keys {α β : Type} (l : List (α × β)) : List α := l.map Prod.fst

/-- A well-formed dict: at most one entry per key. -/
def keysNodup {α β : Type} (l : List (α × β)) : Prop := (keys l).Nodup

instance {α β : Type} [DecidableEq α] (l : List (α × β)) :
    Decidable (keysNodup l) := by
  unfold keysNodup; infer_instance

/-- The fragment of the `jinja2.nodes` AST the plugin inspects.
`name`, `const`, `assign` and `call` mirror `jinja2.nodes.Name`,
`Const`, `Assign` and `Call` (a `Call`'s children are its callee `node`, the
positional `args`, then the remaining child expressions `extra`, i.e.
keyword/dynamic arguments).  `template` is the root node; every other node
kind is collapsed into `other`, keeping only its child list, because the
plugin's pattern matches never discriminate among them. -/
inductive Node where
  | name (id : String) (ctx : String)
  | const (v : Value)
  | assign (target : Node) (node : Node)
  | call (node : Node) (args : List Node) (extra : List Node)
  | template (body : List Node)
  | other (children : List Node)

mutual
/-- All proper descendants of a node in `jinja2`'s `find_all` visiting
order: each child in field order, immediately followed by its own
descendants (pre-order). -/
def descendants : Node → List Node
  | .name _ _ => []
  | .const _ => []
  | .assign t e => (t :: descendants t) ++ (e :: descendants e)
  | .call c args extra =>
      (c :: descendants c) ++ descendantsList args ++ descendantsList extra
  | .template body => descendantsList body
  | .other cs => descendantsList cs

/-- Descendant traversal over a list-valued child field. -/
def descendantsList : List Node → List Node
  | [] => []
  | n :: ns => (n :: descendants n) ++ descendantsList ns
end

/-- Embeds `jinja2.nodes.Node.find_all(node_type)`: the descendants of a node (the
node itself excluded) that match, in visiting order.  `find_all` yields a
matching child before recursing into it, so its output is exactly the
pre-order descendant list filtered by the match. -/
def findAll (p : Node → Bool) (n : Node) : List Node :=
  (descendants n).filter p

/-- Embeds `isinstance(node, jinja2.nodes.Assign)`. -/
def isAssign : Node → Bool
  | .assign _ _ => true
  | _ => false

/-- Embeds `isinstance(node, jinja2.nodes.Call)`. -/
def isCall : Node → Bool
  | .call _ _ _ => true
  | _ => false

/-- The guard inside `_get_const_vars`: an assignment whose target is a
simple `Name` and whose assigned expression is a `Const`, yielding
`(target.name, node.value)`. -/
def constPair : Node → Option (String × Value)
  | .assign (.name id _) (.const v) => some (id, v)
  | _ => Option.none

/-- The guard inside `_get_context_requests`: a call whose callee is a simple
`Name` with exactly two positional arguments, both `Const`, yielding
`(args[0].value, args[1].value)`.  Keyword/dynamic arguments are not
inspected. -/
def callPair : Node → Option (Value × Value)
  | .call (.name _ _) [.const a, .const b] _ => some (a, b)
  | _ => Option.none

/-- Embeds `JinjaProcessor._get_const_vars`: fold over `find_all((Assign,))`,
writing `const_vars[target.name] = node.value` for each matching node. -/
def getConstVars (ast : Node) : List (String × Value) :=
  (findAll isAssign ast).foldl
    (fun m n =>
      match constPair n with
      | some (id, v) => dictSet m id v
      | Option.none => m)
    []

/-- Embeds `JinjaProcessor._get_context_requests`: fold over `find_all((Call,))`,
appending `(args[0].value, args[1].value)` for each matching node. -/
def getContextRequests (ast : Node) : List (Value × Value) :=
  (findAll isCall ast).foldl
    (fun acc n =>
      match callPair n with
      | some q => acc ++ [q]
      | Option.none => acc)
    []

/-- Specification-side description for C1: the `(name, value)` pairs taken
from call-expression nodes whose callee is a simple name and which have
exactly two positional arguments, both constant, in AST traversal order. -/
def contextRequestPairs (ast : Node) : List (Value × Value) :=
  (findAll isCall ast).filterMap callPair

/-- Specification-side description for C2: the `(name, constant)` pairs of
assignment nodes whose target is a simple name and whose assigned expression
is a constant, in AST traversal order. -/
def constAssignPairs (ast : Node) : List (String × Value) :=
  (findAll isAssign ast).filterMap constPair

/-- Specification-side description for C2: the value of the last pair with
key `k` in the list, if any ("the value of the last one in traversal order
is kept"). -/
def lastValueFor (k : String) (l : List (String × Value)) : Option Value :=
  ((l.filter (fun q => decide (q.1 = k))).getLast?).map Prod.snd

/-- A host source record, as returned by `app.sources.get_source`
(`source.size` and `source.modified` are the fields `generate` reads). -/
structure Source where
  size : Nat
  modified : Nat
deriving DecidableEq

/-- A value stored in the rendering context dict built by `generate`:
a string (`url`), a list of strings (`urls`) or a number
(`size` / `modified`). -/
inductive CtxVal where
  | str (s : String)
  | strList (l : List String)
  | num (n : Nat)
deriving DecidableEq

/-- One observable call made to the host application or to the filesystem,
in program order.  Used to state ordering claims about `prepare` and
`generate`. -/
inductive Event where
  | setTargetsEv (p : FPath) (ts : List FPath)
  | setDepsEv (p : FPath) (deps : List FPath)
  | clearCtxDepsEv (p : FPath)
  | addCtxDepEv (p : FPath) (n v : Value)
  | removeContextEv (p : FPath)
  | setContextEv (p : FPath) (n : String) (v : Value)
  | makedirsEv (d : FPath)
  | writeFileEv (p : FPath) (content : String)
deriving DecidableEq

/-- The host application's stores, keyed by source file path:
`app.sources` targets and dependencies, and `app.contexts` context
dependencies and context variables. -/
structure HostState where
  targets : List (FPath × List FPath)
  dependencies : List (FPath × List FPath)
  ctxDeps : List (FPath × List (Value × Value))
  contexts : List (FPath × List (String × Value))

/-- Embeds `app.sources.set_targets(path, ts)`. -/
def hostSetTargets (h : HostState) (p : FPath) (ts : List FPath) : HostState :=
  { h with targets := dictSet h.targets p ts }

/-- Embeds `app.sources.set_dependencies(path, deps)`. -/
def hostSetDependencies (h : HostState) (p : FPath) (deps : List FPath) :
    HostState :=
  { h with dependencies := dictSet h.dependencies p deps }

/-- Embeds `app.contexts.clear_dependencies(path)`. -/
def hostClearCtxDeps (h : HostState) (p : FPath) : HostState :=
  { h with ctxDeps := dictSet h.ctxDeps p [] }

/-- Embeds `app.contexts.add_dependency(path, name, value)`. -/
def hostAddCtxDep (h : HostState) (p : FPath) (n v : Value) : HostState :=
  { h with ctxDeps := dictSet h.ctxDeps p ((lookupD p h.ctxDeps).getD [] ++ [(n, v)]) }

/-- Embeds `app.contexts.remove_context(path)`. -/
def hostRemoveContext (h : HostState) (p : FPath) : HostState :=
  { h with contexts := dictRemove p h.contexts }

/-- Embeds `app.contexts.set_context(path, name, value)`. -/
def hostSetContext (h : HostState) (p : FPath) (n : String) (v : Value) :
    HostState :=
  { h with contexts := dictSet h.contexts p (dictSet ((lookupD p h.contexts).getD []) n v) }

/-- The whole observable state: the processor's fields
(`_generate` as `pending`, `_set_contexts` as `setContexts`, `current_path`),
the host's stores, the files and directories written so far, and the trace of
host/filesystem calls made so far. -/
structure State where
  host : HostState
  pending : List (FPath × (FPath × Node))
  setContexts : List (String × Value)
  currentPath : Option FPath
  fs : List (FPath × String)
  dirs : List FPath
  trace : List Event

/-- The external collaborators, modelled as pure functions: file reading,
the Jinja parser (returning the AST together with the `setcontext`
`(name, value)` pairs the `SetContextExtension` reports to the processor, in
document order), `jinja2.meta.find_referenced_templates`, the host's path
helpers, the renderer, and `app.sources.get_source`. -/
structure Env where
  readFile : FPath → String
  parse : String → Node × List (String × Value)
  findReferencedTemplates : Node → List String
  sourcePath : String → FPath
  targetPath : FPath → FPath
  relativePath : FPath → String
  dirname : FPath → FPath
  render : String → List (String × CtxVal) → String
  getSource : FPath → Option Source

/-- Embeds `JinjaProcessor.add_set_context(name, value)`:
`self._set_contexts[name] = value`. -/
def add_set_context (m : List (String × Value)) (name : String)
    (value : Value) : List (String × Value) :=
  dictSet m name value

/-- The `_set_contexts` dict accumulated while a template is parsed: the
extension calls `add_set_context` once per `setcontext` assignment, starting
from the empty dict `prepare` resets it to. -/
def collectSetContexts (calls : List (String × Value)) :
    List (String × Value) :=
  calls.foldl (fun m q => add_set_context m q.1 q.2) []

/-- Python `s.endswith(suffix)` over character lists:
`len(s) >= len(suffix)` and the last `len(suffix)` characters equal
`suffix`. -/
def endswithChars (s suffix : List Char) : Bool :=
  decide (suffix.length ≤ s.length) &&
    decide (s.drop (s.length - suffix.length) = suffix)

/-- Embeds `JinjaProcessor.can_process(path)`: `path.endswith('.html')`.
Python `str.endswith` on the character sequences. -/
def can_process (path : FPath) : Bool :=
  endswithChars path.toList ".html".toList

/-- The host registrations `prepare` performs for `path`, in program order:
`set_targets`, `set_dependencies`, `clear_dependencies` followed by one
`add_dependency` per context request, `remove_context` followed by one
`set_context` per collected `_set_contexts` item. -/
def prepareHost (h : HostState) (path target : FPath) (refs : List FPath)
    (requests : List (Value × Value)) (setCtxs : List (String × Value)) :
    HostState :=
  let h1 := hostSetTargets h path [target]
  let h2 := hostSetDependencies h1 path refs
  let h3 := hostClearCtxDeps h2 path
  let h4 := requests.foldl (fun h0 r => hostAddCtxDep h0 path r.1 r.2) h3
  let h5 := hostRemoveContext h4 path
  setCtxs.foldl (fun h0 q => hostSetContext h0 path q.1 q.2) h5

/-- Embeds `JinjaProcessor.prepare(path)`.  If the path is already pending
generation, nothing happens.  Otherwise the file is read and parsed (the
parse reporting `setcontext` pairs into `_set_contexts`, freshly reset), and
the plugin registers, in order: the single target, the referenced-template
dependencies, the context dependencies (cleared, then re-added from
`_get_context_requests`), and the contexts (removed, then re-set from
`_set_contexts`); finally the path is recorded as pending unless the
`template_only` constant is truthy. -/
def prepare (env : Env) (s : State) (path : FPath) : State :=
  match lookupD path s.pending with
  | some _ => s
  | Option.none =>
    let target := env.targetPath path
    let pr := env.parse (env.readFile path)
    let ast := pr.1
    let setCtxs := collectSetContexts pr.2
    let refs := (env.findReferencedTemplates ast).map env.sourcePath
    let consts := getConstVars ast
    let templateOnly := ((lookupD "template_only" consts).getD (.bool false)).truthy
    let requests := getContextRequests ast
    { s with
      host := prepareHost s.host path target refs requests setCtxs
      currentPath := some path
      setContexts := setCtxs
      pending := if templateOnly then s.pending else dictSet s.pending path (target, ast)
      trace := s.trace
        ++ [Event.setTargetsEv path [target],
            Event.setDepsEv path refs,
            Event.clearCtxDepsEv path]
        ++ requests.map (fun r => Event.addCtxDepEv path r.1 r.2)
        ++ [Event.removeContextEv path]
        ++ setCtxs.map (fun q => Event.setContextEv path q.1 q.2) }

/-- The rendering context dict built by `generate`: empty when the host has
no source record; otherwise `url` (only when there is exactly one target),
then `urls`, `size` and `modified`, in insertion order. -/
def buildContextDict (env : Env) (s : State) (path : FPath) :
    List (String × CtxVal) :=
  match env.getSource path with
  | Option.none => []
  | some src =>
    let targets := (lookupD path s.host.targets).getD []
    (if targets.length = 1 then
      [("url", CtxVal.str ("/" ++ env.relativePath (targets.headD "")))]
     else [])
    ++ [("urls", CtxVal.strList (targets.map (fun t => "/" ++ env.relativePath t))),
        ("size", CtxVal.num src.size),
        ("modified", CtxVal.num src.modified)]

/-- The `_set_contexts` dict as a generic insertion-ordered dict built from a
list of updates. -/
def dictOfPairs {α β : Type} [DecidableEq α] (l : List (α × β)) :
    List (α × β) :=
  l.foldl (fun m q => dictSet m q.1 q.2) []

/-- Embeds `JinjaProcessor.generate(path)`.  If the path is pending, re-read and
render the template with the context dict, create the target's parent
directory, write the rendered text to the recorded target, and remove the
path from the pending map; otherwise do nothing. -/
def generate (env : Env) (s : State) (path : FPath) : State :=
  match lookupD path s.pending with
  | Option.none => s
  | some (target, _ast) =>
    let rendered := env.render (env.readFile path) (buildContextDict env s path)
    { s with
      dirs := s.dirs ++ [env.dirname target]
      fs := dictSet s.fs target rendered
      pending := dictRemove path s.pending
      trace := s.trace
        ++ [Event.makedirsEv (env.dirname target),
            Event.writeFileEv target rendered] }

/-- A concrete template AST for witnesses: one constant assignment and one
two-constant-argument call nested in another node. -/
def testAst : Node :=
  .template
    [.assign (.name "title" "store") (.const (.str "Home")),
     .other [.call (.name "getcontexts" "load")
               [.const (.str "tag"), .const (.str "news")] []]]

/-- A concrete template AST whose `template_only` constant is truthy. -/
def testAstTO : Node :=
  .template
    [.assign (.name "template_only" "store") (.const (.bool true))]

/-- A concrete environment for witnesses. -/
def testEnv : Env where
  readFile := fun _ => "SRC"
  parse := fun _ => (testAst, [("page_kind", Value.str "index")])
  findReferencedTemplates := fun _ => ["base.html"]
  sourcePath := fun t => "/src/" ++ t
  targetPath := fun p => "/out/" ++ p
  relativePath := fun p => p
  dirname := fun _ => "/out"
  render := fun c _ => c
  getSource := fun _ => some ⟨10, 20⟩

/-- A concrete environment whose parse yields a `template_only` template. -/
def testEnvTO : Env where
  readFile := fun _ => "SRC"
  parse := fun _ => (testAstTO, [])
  findReferencedTemplates := fun _ => []
  sourcePath := fun t => "/src/" ++ t
  targetPath := fun p => "/out/" ++ p
  relativePath := fun p => p
  dirname := fun _ => "/out"
  render := fun c _ => c
  getSource := fun _ => some ⟨10, 20⟩

/-- The initial, empty state. -/
def initState : State where
  host := ⟨[], [], [], []⟩
  pending := []
  setContexts := []
  currentPath := Option.none
  fs := []
  dirs := []
  trace := []

/-- A state in which `a.html` is pending generation (as after a `prepare`),
with its target registered with the host. -/
def pendState : State :=
  { initState with
    host := ⟨[("a.html", ["/out/a.html"])], [], [], []⟩
    pending := [("a.html", ("/out/a.html", testAst))] }

example : getConstVars testAst = [("title", Value.str "Home")] := rfl
example : getContextRequests testAst = [(Value.str "tag", Value.str "news")] := rfl
example : can_process "index.html" = true := rfl
example : can_process "index.htm" = false := rfl
example :
    (prepare testEnv initState "a.html").pending =
      [("a.html", ("/out/a.html", testAst))] := rfl
example : (prepare testEnvTO initState "a.html").pending = [] := rfl

/-! ### Association-list dictionary lemmas -/

theorem lookupD_dictSet {α β : Type} [DecidableEq α] (l : List (α × β))
    (k q : α) (v : β) :
    lookupD q (dictSet l k v) = if k = q then some v else lookupD q l := by
  induction l with
  | nil => simp [dictSet, lookupD]
  | cons hd tl ih =>
    simp only [dictSet]
    by_cases h0 : hd.1 = k
    · rw [if_pos h0]
      simp only [lookupD]
      by_cases h1 : k = q
      · simp [h1]
      · have h2 : ¬ hd.1 = q := fun e => h1 (h0 ▸ e)
        simp [h1, h2]
    · rw [if_neg h0]
      simp only [lookupD, ih]
      by_cases h1 : k = q
      · have h2 : ¬ hd.1 = q := fun e => h0 (by rw [e, ← h1])
        simp [h1, h2]
      · simp [h1]

theorem lookupD_dictRemove {α β : Type} [DecidableEq α] (l : List (α × β))
    (k q : α) :
    lookupD q (dictRemove k l) =
      if k = q then Option.none else lookupD q l := by
  induction l with
  | nil => simp [dictRemove, lookupD]
  | cons hd tl ih =>
    simp only [dictRemove, List.filter_cons] at ih ⊢
    by_cases h0 : hd.1 = k
    · rw [if_neg (by simp [h0])]
      rw [ih]
      by_cases h1 : k = q
      · simp [h1]
      · have h2 : ¬ hd.1 = q := by rw [h0]; exact h1
        simp [lookupD, h1, h2]
    · rw [if_pos (by simp [h0])]
      simp only [lookupD, ih]
      by_cases h1 : k = q
      · have h2 : ¬ hd.1 = q := by rw [← h1]; exact h0
        simp [h1, h2]
      · simp [h1]

theorem keys_dictSet {α β : Type} [DecidableEq α] (l : List (α × β))
    (k : α) (v : β) :
    keys (dictSet l k v) =
      if k ∈ keys l then keys l else keys l ++ [k] := by
  induction l with
  | nil => simp [dictSet, keys]
  | cons hd tl ih =>
    simp only [dictSet]
    by_cases h0 : hd.1 = k
    · rw [if_pos h0]
      have hk : k ∈ keys (hd :: tl) := by
        simp only [keys, List.map_cons, List.mem_cons]
        exact Or.inl h0.symm
      rw [if_pos hk]
      simp [keys, h0]
    · rw [if_neg h0]
      simp only [keys, List.map_cons] at ih ⊢
      rw [ih]
      by_cases h1 : k ∈ List.map Prod.fst tl
      · have hk : k ∈ hd.1 :: List.map Prod.fst tl := List.mem_cons.2 (Or.inr h1)
        simp [h1, hk]
      · have hk : ¬ k ∈ hd.1 :: List.map Prod.fst tl := by
          simp only [List.mem_cons, not_or]
          exact ⟨fun e => h0 e.symm, h1⟩
        simp [h1, hk]

theorem keysNodup_dictSet {α β : Type} [DecidableEq α]
    {l : List (α × β)} (k : α) (v : β) (h : keysNodup l) :
    keysNodup (dictSet l k v) := by
  unfold keysNodup at *
  rw [keys_dictSet]
  split_ifs with h1
  · exact h
  · rw [List.nodup_append]
    exact ⟨h, List.nodup_singleton k, List.disjoint_singleton.2 h1⟩

theorem keysNodup_dictRemove {α β : Type} [DecidableEq α]
    {l : List (α × β)} (k : α) (h : keysNodup l) :
    keysNodup (dictRemove k l) :=
  List.Nodup.sublist (List.Sublist.map Prod.fst (List.filter_sublist l)) h

theorem foldl_dictSet_cons {α β : Type} [DecidableEq α] (l : List (α × β))
    (d : List (α × β)) (k : α) (v : β) (h : k ∉ keys l) :
    l.foldl (fun m q => dictSet m q.1 q.2) ((k, v) :: d) =
      (k, v) :: l.foldl (fun m q => dictSet m q.1 q.2) d := by
  induction l generalizing d with
  | nil => rfl
  | cons hd tl ih =>
    have h1 : ¬ k = hd.1 ∧ k ∉ keys tl := by
      simpa [keys, not_or] using h
    simp only [List.foldl_cons]
    rw [show dictSet ((k, v) :: d) hd.1 hd.2 = (k, v) :: dictSet d hd.1 hd.2 from by
      simp only [dictSet]
      rw [if_neg (by simpa using h1.1)]]
    exact ih _ h1.2

theorem dictOfPairs_self {α β : Type} [DecidableEq α] (l : List (α × β))
    (h : keysNodup l) : dictOfPairs l = l := by
  induction l with
  | nil => rfl
  | cons hd tl ih =>
    have h1 : hd.1 ∉ keys tl ∧ keysNodup tl := by
      simpa [keysNodup, keys] using h
    have h2 := ih h1.2
    unfold dictOfPairs at h2 ⊢
    simp only [List.foldl_cons]
    calc tl.foldl (fun m q => dictSet m q.1 q.2) (dictSet [] hd.1 hd.2)
        = tl.foldl (fun m q => dictSet m q.1 q.2) ((hd.1, hd.2) :: []) := rfl
      _ = (hd.1, hd.2) :: tl.foldl (fun m q => dictSet m q.1 q.2) [] :=
          foldl_dictSet_cons tl [] hd.1 hd.2 h1.1
      _ = hd :: tl := by rw [h2]

theorem keysNodup_foldl_dictSet {α β : Type} [DecidableEq α]
    (l d : List (α × β)) (h : keysNodup d) :
    keysNodup (l.foldl (fun m q => dictSet m q.1 q.2) d) := by
  induction l generalizing d with
  | nil => exact h
  | cons hd tl ih => exact ih _ (keysNodup_dictSet _ _ h)

theorem keysNodup_dictOfPairs {α β : Type} [DecidableEq α]
    (l : List (α × β)) : keysNodup (dictOfPairs l) :=
  keysNodup_foldl_dictSet l [] (by simp [keysNodup, keys])

theorem collectSetContexts_eq_dictOfPairs (calls : List (String × Value)) :
    collectSetContexts calls = dictOfPairs calls := rfl

/-! ### Host-state fold lemmas -/

theorem hostAddCtxDep_fold_lookup (l : List (Value × Value)) (h : HostState)
    (p : FPath) (e : List (Value × Value)) (he : lookupD p h.ctxDeps = some e) :
    lookupD p ((l.foldl (fun h0 r => hostAddCtxDep h0 p r.1 r.2) h).ctxDeps) =
      some (e ++ l) := by
  induction l generalizing h e with
  | nil => simpa using he
  | cons hd tl ih =>
    simp only [List.foldl_cons]
    have hstep : lookupD p (hostAddCtxDep h p hd.1 hd.2).ctxDeps =
        some (e ++ [hd]) := by
      simp [hostAddCtxDep, lookupD_dictSet, he]
    have := ih (hostAddCtxDep h p hd.1 hd.2) (e ++ [hd]) hstep
    simpa [List.append_assoc] using this

theorem hostAddCtxDep_fold_frame (l : List (Value × Value)) (h : HostState)
    (p : FPath) :
    ((l.foldl (fun h0 r => hostAddCtxDep h0 p r.1 r.2) h)).targets = h.targets ∧
    ((l.foldl (fun h0 r => hostAddCtxDep h0 p r.1 r.2) h)).dependencies =
      h.dependencies ∧
    ((l.foldl (fun h0 r => hostAddCtxDep h0 p r.1 r.2) h)).contexts =
      h.contexts := by
  induction l generalizing h with
  | nil => exact ⟨rfl, rfl, rfl⟩
  | cons hd tl ih =>
    simp only [List.foldl_cons]
    exact ih (hostAddCtxDep h p hd.1 hd.2)

theorem hostAddCtxDep_fold_lookup_ne (l : List (Value × Value)) (h : HostState)
    (p q : FPath) (hq : ¬ p = q) :
    lookupD q ((l.foldl (fun h0 r => hostAddCtxDep h0 p r.1 r.2) h).ctxDeps) =
      lookupD q h.ctxDeps := by
  induction l generalizing h with
  | nil => rfl
  | cons hd tl ih =>
    simp only [List.foldl_cons]
    rw [ih (hostAddCtxDep h p hd.1 hd.2)]
    simp [hostAddCtxDep, lookupD_dictSet, hq]

theorem hostSetContext_fold_getD (l : List (String × Value)) (h : HostState)
    (p : FPath) :
    (lookupD p
        ((l.foldl (fun h0 r => hostSetContext h0 p r.1 r.2) h).contexts)).getD
        [] =
      l.foldl (fun d r => dictSet d r.1 r.2)
        ((lookupD p h.contexts).getD []) := by
  induction l generalizing h with
  | nil => rfl
  | cons hd tl ih =>
    simp only [List.foldl_cons]
    rw [ih]
    congr 1
    simp [hostSetContext, lookupD_dictSet]

theorem hostSetContext_fold_frame (l : List (String × Value)) (h : HostState)
    (p : FPath) :
    ((l.foldl (fun h0 r => hostSetContext h0 p r.1 r.2) h)).targets =
      h.targets ∧
    ((l.foldl (fun h0 r => hostSetContext h0 p r.1 r.2) h)).dependencies =
      h.dependencies ∧
    ((l.foldl (fun h0 r => hostSetContext h0 p r.1 r.2) h)).ctxDeps =
      h.ctxDeps := by
  induction l generalizing h with
  | nil => exact ⟨rfl, rfl, rfl⟩
  | cons hd tl ih =>
    simp only [List.foldl_cons]
    exact ih (hostSetContext h p hd.1 hd.2)

theorem hostSetContext_fold_lookup_ne (l : List (String × Value))
    (h : HostState) (p q : FPath) (hq : ¬ p = q) :
    lookupD q ((l.foldl (fun h0 r => hostSetContext h0 p r.1 r.2) h).contexts) =
      lookupD q h.contexts := by
  induction l generalizing h with
  | nil => rfl
  | cons hd tl ih =>
    simp only [List.foldl_cons]
    rw [ih (hostSetContext h p hd.1 hd.2)]
    simp [hostSetContext, lookupD_dictSet, hq]

/-! ### Extraction lemmas (`_get_const_vars`, `_get_context_requests`) -/

theorem lastValueFor_concat (k : String) (l : List (String × Value))
    (a : String × Value) :
    lastValueFor k (l ++ [a]) =
      if a.1 = k then some a.2 else lastValueFor k l := by
  unfold lastValueFor
  rw [List.filter_append]
  by_cases h : a.1 = k
  · simp [List.filter_cons, h, List.getLast?_concat]
  · simp [List.filter_cons, h]

theorem getContextRequests_foldl (l : List Node)
    (acc : List (Value × Value)) :
    l.foldl
        (fun acc n =>
          match callPair n with
          | some q => acc ++ [q]
          | Option.none => acc)
        acc =
      acc ++ l.filterMap callPair := by
  induction l generalizing acc with
  | nil => simp
  | cons hd tl ih =>
    simp only [List.foldl_cons, List.filterMap_cons]
    rcases hc : callPair hd with _ | q
    · simp only [hc, ih]
    · simp only [hc, ih, List.append_assoc, List.singleton_append]

theorem getConstVars_foldl (l : List Node) (m : List (String × Value))
    (k : String) :
    lookupD k
        (l.foldl
          (fun m n =>
            match constPair n with
            | some (id, v) => dictSet m id v
            | Option.none => m)
          m) =
      match lastValueFor k (l.filterMap constPair) with
      | some v => some v
      | Option.none => lookupD k m := by
  induction l using List.reverseRecOn with
  | nil => simp [lastValueFor]
  | append_singleton ts n ih =>
    rw [List.foldl_append, List.filterMap_append]
    rcases hc : constPair n with _ | ⟨id, v⟩
    · simp only [List.foldl_cons, List.foldl_nil, hc, List.filterMap_cons,
        List.filterMap_nil, List.append_nil, ih]
    · simp only [List.foldl_cons, List.foldl_nil, hc, List.filterMap_cons,
        List.filterMap_nil]
      rw [lastValueFor_concat]
      by_cases hk : id = k
      · simp only [hk, if_pos rfl]
        rw [lookupD_dictSet]
        simp
      · rw [show ((id, v) : String × Value).1 = id from rfl] at *
        rw [if_neg hk, lookupD_dictSet, if_neg hk, ih]

/-! ### `prepareHost` characterization -/

theorem prepareHost_targets_self (h : HostState) (path target : FPath)
    (refs : List FPath) (requests : List (Value × Value))
    (setCtxs : List (String × Value)) :
    lookupD path (prepareHost h path target refs requests setCtxs).targets =
      some [target] := by
  simp only [prepareHost]
  rw [(hostSetContext_fold_frame setCtxs _ path).1]
  simp only [hostRemoveContext]
  rw [(hostAddCtxDep_fold_frame requests _ path).1]
  simp [hostClearCtxDeps, hostSetDependencies, hostSetTargets, lookupD_dictSet]

theorem prepareHost_dependencies_self (h : HostState) (path target : FPath)
    (refs : List FPath) (requests : List (Value × Value))
    (setCtxs : List (String × Value)) :
    lookupD path
        (prepareHost h path target refs requests setCtxs).dependencies =
      some refs := by
  simp only [prepareHost]
  rw [(hostSetContext_fold_frame setCtxs _ path).2.1]
  simp only [hostRemoveContext]
  rw [(hostAddCtxDep_fold_frame requests _ path).2.1]
  simp [hostClearCtxDeps, hostSetDependencies, hostSetTargets, lookupD_dictSet]

theorem prepareHost_ctxDeps_self (h : HostState) (path target : FPath)
    (refs : List FPath) (requests : List (Value × Value))
    (setCtxs : List (String × Value)) :
    lookupD path (prepareHost h path target refs requests setCtxs).ctxDeps =
      some requests := by
  simp only [prepareHost]
  rw [(hostSetContext_fold_frame setCtxs _ path).2.2]
  simp only [hostRemoveContext]
  have he : lookupD path
      (hostClearCtxDeps
        (hostSetDependencies (hostSetTargets h path [target]) path refs)
        path).ctxDeps = some [] := by
    simp [hostClearCtxDeps, hostSetDependencies, hostSetTargets, lookupD_dictSet]
  rw [hostAddCtxDep_fold_lookup requests _ path [] he]
  simp

theorem prepareHost_contexts_self (h : HostState) (path target : FPath)
    (refs : List FPath) (requests : List (Value × Value))
    (setCtxs : List (String × Value)) :
    (lookupD path
        (prepareHost h path target refs requests setCtxs).contexts).getD [] =
      dictOfPairs setCtxs := by
  simp only [prepareHost]
  rw [hostSetContext_fold_getD]
  simp only [hostRemoveContext]
  rw [show lookupD path (dictRemove path
      ((requests.foldl (fun h0 r => hostAddCtxDep h0 path r.1 r.2)
        (hostClearCtxDeps
          (hostSetDependencies (hostSetTargets h path [target]) path refs)
          path)).contexts)) = (Option.none : Option (List (String × Value)))
    from by rw [lookupD_dictRemove, if_pos rfl]]
  rfl

theorem prepareHost_targets_ne (h : HostState) (path target : FPath)
    (refs : List FPath) (requests : List (Value × Value))
    (setCtxs : List (String × Value)) (q : FPath) (hq : ¬ path = q) :
    lookupD q (prepareHost h path target refs requests setCtxs).targets =
      lookupD q h.targets := by
  simp only [prepareHost]
  rw [(hostSetContext_fold_frame setCtxs _ path).1]
  simp only [hostRemoveContext]
  rw [(hostAddCtxDep_fold_frame requests _ path).1]
  simp [hostClearCtxDeps, hostSetDependencies, hostSetTargets, lookupD_dictSet,
    hq]

theorem prepareHost_dependencies_ne (h : HostState) (path target : FPath)
    (refs : List FPath) (requests : List (Value × Value))
    (setCtxs : List (String × Value)) (q : FPath) (hq : ¬ path = q) :
    lookupD q (prepareHost h path target refs requests setCtxs).dependencies =
      lookupD q h.dependencies := by
  simp only [prepareHost]
  rw [(hostSetContext_fold_frame setCtxs _ path).2.1]
  simp only [hostRemoveContext]
  rw [(hostAddCtxDep_fold_frame requests _ path).2.1]
  simp [hostClearCtxDeps, hostSetDependencies, hostSetTargets, lookupD_dictSet,
    hq]

theorem prepareHost_ctxDeps_ne (h : HostState) (path target : FPath)
    (refs : List FPath) (requests : List (Value × Value))
    (setCtxs : List (String × Value)) (q : FPath) (hq : ¬ path = q) :
    lookupD q (prepareHost h path target refs requests setCtxs).ctxDeps =
      lookupD q h.ctxDeps := by
  simp only [prepareHost]
  rw [(hostSetContext_fold_frame setCtxs _ path).2.2]
  simp only [hostRemoveContext]
  rw [hostAddCtxDep_fold_lookup_ne requests _ path q hq]
  simp [hostClearCtxDeps, hostSetDependencies, hostSetTargets, lookupD_dictSet,
    hq]

theorem prepareHost_contexts_ne (h : HostState) (path target : FPath)
    (refs : List FPath) (requests : List (Value × Value))
    (setCtxs : List (String × Value)) (q : FPath) (hq : ¬ path = q) :
    lookupD q (prepareHost h path target refs requests setCtxs).contexts =
      lookupD q h.contexts := by
  simp only [prepareHost]
  rw [hostSetContext_fold_lookup_ne setCtxs _ path q hq]
  simp only [hostRemoveContext]
  rw [show lookupD q (dictRemove path
      ((requests.foldl (fun h0 r => hostAddCtxDep h0 path r.1 r.2)
        (hostClearCtxDeps
          (hostSetDependencies (hostSetTargets h path [target]) path refs)
          path)).contexts)) =
      lookupD q ((requests.foldl (fun h0 r => hostAddCtxDep h0 path r.1 r.2)
        (hostClearCtxDeps
          (hostSetDependencies (hostSetTargets h path [target]) path refs)
          path)).contexts)
    from by rw [lookupD_dictRemove, if_neg hq]]
  rw [(hostAddCtxDep_fold_frame requests _ path).2.2]
  simp [hostClearCtxDeps, hostSetDependencies, hostSetTargets]

/-! ### Unfolding `prepare` and `generate` -/

theorem prepare_eq_body (env : Env) (s : State) (path : FPath)
    (hp : lookupD path s.pending = Option.none) :
    prepare env s path =
      { s with
        host := prepareHost s.host path (env.targetPath path)
          ((env.findReferencedTemplates (env.parse (env.readFile path)).1).map
            env.sourcePath)
          (getContextRequests (env.parse (env.readFile path)).1)
          (collectSetContexts (env.parse (env.readFile path)).2)
        currentPath := some path
        setContexts := collectSetContexts (env.parse (env.readFile path)).2
        pending :=
          if ((lookupD "template_only"
                (getConstVars (env.parse (env.readFile path)).1)).getD
              (.bool false)).truthy
          then s.pending
          else dictSet s.pending path
            (env.targetPath path, (env.parse (env.readFile path)).1)
        trace := s.trace
          ++ [Event.setTargetsEv path [env.targetPath path],
              Event.setDepsEv path
                ((env.findReferencedTemplates
                  (env.parse (env.readFile path)).1).map env.sourcePath),
              Event.clearCtxDepsEv path]
          ++ (getContextRequests (env.parse (env.readFile path)).1).map
              (fun r => Event.addCtxDepEv path r.1 r.2)
          ++ [Event.removeContextEv path]
          ++ (collectSetContexts (env.parse (env.readFile path)).2).map
              (fun q => Event.setContextEv path q.1 q.2) } := by
  unfold prepare
  rw [hp]

theorem prepare_eq_of_pending (env : Env) (s : State) (path : FPath)
    (pr : FPath × Node) (hp : lookupD path s.pending = some pr) :
    prepare env s path = s := by
  unfold prepare
  rw [hp]

theorem generate_eq_of_not_pending (env : Env) (s : State) (path : FPath)
    (h : lookupD path s.pending = Option.none) :
    generate env s path = s := by
  unfold generate
  rw [h]

theorem generate_eq_of_pending (env : Env) (s : State) (path target : FPath)
    (ast : Node) (h : lookupD path s.pending = some (target, ast)) :
    generate env s path =
      { s with
        dirs := s.dirs ++ [env.dirname target]
        fs := dictSet s.fs target
          (env.render (env.readFile path) (buildContextDict env s path))
        pending := dictRemove path s.pending
        trace := s.trace
          ++ [Event.makedirsEv (env.dirname target),
              Event.writeFileEv target
                (env.render (env.readFile path)
                  (buildContextDict env s path))] } := by
  unfold generate
  rw [h]

/-! ### Claim theorems -/

/-- C10: `can_process(path)` returns true if and only if the path ends with
the suffix `.html`. -/
theorem c10_can_process_iff_html_suffix (path : FPath) :
    can_process path = true ↔ ∃ pre : String, path = pre ++ ".html" := by
  unfold can_process endswithChars
  constructor
  · intro h
    simp only [Bool.and_eq_true, decide_eq_true_eq] at h
    obtain ⟨hlen, hdrop⟩ := h
    refine ⟨String.mk
      (path.toList.take (path.toList.length - ".html".toList.length)), ?_⟩
    apply String.ext
    rw [String.data_append]
    conv_lhs => rw [show path.data = path.toList from rfl,
      ← List.take_append_drop
        (path.toList.length - ".html".toList.length) path.toList, hdrop]
    rfl
  · rintro ⟨pre, rfl⟩
    have hsplit : (pre ++ ".html").toList = pre.toList ++ ".html".toList := by
      simp [String.toList, String.data_append]
    simp only [Bool.and_eq_true, decide_eq_true_eq, hsplit,
      List.length_append]
    constructor
    · omega
    · have hlen : pre.toList.length + ".html".toList.length -
          ".html".toList.length = pre.toList.length := by omega
      rw [hlen, List.drop_left]

/-- C9: `generate(path)` on a path that is not pending performs no side
effects at all (the state is returned unchanged), and repeating
`generate(path)` immediately after any `generate(path)` writes nothing a
second time. -/
theorem c9_generate_frame_when_not_pending (env : Env) (s : State)
    (path : FPath) (h : lookupD path s.pending = Option.none) :
    generate env s path = s ∧
    ∀ s2 : State,
      generate env (generate env s2 path) path = generate env s2 path := by
  refine ⟨generate_eq_of_not_pending env s path h, ?_⟩
  intro s2
  rcases h2 : lookupD path s2.pending with _ | pr
  · rw [generate_eq_of_not_pending env s2 path h2,
      generate_eq_of_not_pending env s2 path h2]
  · obtain ⟨t, a⟩ := pr
    have h3 : lookupD path (generate env s2 path).pending = Option.none := by
      rw [generate_eq_of_pending env s2 path t a h2]
      simp [lookupD_dictRemove]
    exact generate_eq_of_not_pending env _ path h3

/-- C9 witness: at the empty state, `generate` leaves everything unchanged
and is idempotent. -/
theorem c9_witness :
    lookupD "a.html" initState.pending = Option.none ∧
    generate testEnv initState "a.html" = initState :=
  ⟨rfl, (c9_generate_frame_when_not_pending testEnv initState "a.html"
    rfl).1⟩

/-- C2: the constant-variable extraction maps a name to a constant exactly
when the AST has an assignment of that constant to that simple name, and
among several assignments to the same name the last one in traversal order
wins. -/
theorem c2_const_vars_last_assignment_wins (ast : Node) (k : String) :
    lookupD k (getConstVars ast) = lastValueFor k (constAssignPairs ast) := by
  unfold getConstVars constAssignPairs
  rw [getConstVars_foldl]
  rcases h : lastValueFor k ((findAll isAssign ast).filterMap constPair)
    with _ | v
  · rfl
  · rfl

/-- C1: the extracted context requests are exactly the `(name, value)` pairs
of call-expression nodes whose callee is a simple name with exactly two
positional constant arguments, taken in AST traversal order; and during
`prepare` of a non-pending path they are registered with the host as the
file's context dependencies. -/
theorem c1_context_requests_extracted_and_registered (env : Env) (s : State)
    (path : FPath) (ast : Node) (calls : List (String × Value))
    (hp : lookupD path s.pending = Option.none)
    (hparse : env.parse (env.readFile path) = (ast, calls)) :
    getContextRequests ast = contextRequestPairs ast ∧
    lookupD path (prepare env s path).host.ctxDeps =
      some (getContextRequests ast) := by
  constructor
  · unfold getContextRequests contextRequestPairs
    rw [getContextRequests_foldl]
    simp
  · rw [prepare_eq_body env s path hp]
    simp only [hparse]
    exact prepareHost_ctxDeps_self s.host path (env.targetPath path) _ _ _

/-- C1 witness. -/
theorem c1_witness :
    lookupD "a.html" initState.pending = Option.none ∧
    testEnv.parse (testEnv.readFile "a.html") =
      (testAst, [("page_kind", Value.str "index")]) ∧
    (getContextRequests testAst = contextRequestPairs testAst ∧
     lookupD "a.html" (prepare testEnv initState "a.html").host.ctxDeps =
       some (getContextRequests testAst)) :=
  ⟨rfl, rfl, c1_context_requests_extracted_and_registered testEnv initState
    "a.html" testAst [("page_kind", Value.str "index")] rfl rfl⟩

/-- C3 counterexample: the claim says every call to `prepare(path)`
re-parses and re-registers; but for a path that is already pending
generation the second call returns the state unchanged — it performs no
parse and no registration (the first call's trace is non-empty, the second
call adds nothing). -/
theorem c3_counterexample_second_prepare_is_noop :
    prepare testEnv (prepare testEnv initState "a.html") "a.html" =
      prepare testEnv initState "a.html" ∧
    (prepare testEnv initState "a.html").trace ≠ initState.trace := by
  constructor
  · exact prepare_eq_of_pending testEnv _ "a.html" ("/out/a.html", testAst)
      rfl
  · have hlen : (prepare testEnv initState "a.html").trace.length = 6 := rfl
    intro h
    rw [h] at hlen
    exact absurd hlen (by decide)

/-- C3 (amended): every call to `prepare(path)` on a path that is not
already pending generation rebuilds that file's cached metadata from a
fresh parse: it re-registers with the host the file's single target, its
referenced-template dependencies, its context dependencies from the
extracted context requests, and its contexts from the pairs collected
during parsing.  (A call on a path that is already pending does nothing.) -/
theorem c3_prepare_rebuilds_when_not_pending (env : Env) (s : State)
    (path : FPath) (ast : Node) (calls : List (String × Value))
    (hp : lookupD path s.pending = Option.none)
    (hparse : env.parse (env.readFile path) = (ast, calls)) :
    lookupD path (prepare env s path).host.targets =
      some [env.targetPath path] ∧
    lookupD path (prepare env s path).host.dependencies =
      some ((env.findReferencedTemplates ast).map env.sourcePath) ∧
    lookupD path (prepare env s path).host.ctxDeps =
      some (getContextRequests ast) ∧
    (lookupD path (prepare env s path).host.contexts).getD [] =
      collectSetContexts calls := by
  rw [prepare_eq_body env s path hp]
  simp only [hparse]
  have hctx : dictOfPairs (collectSetContexts calls) =
      collectSetContexts calls :=
    dictOfPairs_self _ (by
      rw [collectSetContexts_eq_dictOfPairs]
      exact keysNodup_dictOfPairs calls)
  refine ⟨?_, ?_, ?_, ?_⟩
  · exact prepareHost_targets_self s.host path (env.targetPath path) _ _ _
  · exact prepareHost_dependencies_self s.host path (env.targetPath path) _ _ _
  · exact prepareHost_ctxDeps_self s.host path (env.targetPath path) _ _ _
  · rw [prepareHost_contexts_self s.host path (env.targetPath path) _ _ _]
    exact hctx

/-- C3 witness (for the amended claim). -/
theorem c3_witness :
    lookupD "a.html" initState.pending = Option.none ∧
    testEnv.parse (testEnv.readFile "a.html") =
      (testAst, [("page_kind", Value.str "index")]) ∧
    lookupD "a.html" (prepare testEnv initState "a.html").host.targets =
      some ["/out/a.html"] :=
  ⟨rfl, rfl, (c3_prepare_rebuilds_when_not_pending testEnv initState "a.html"
    testAst [("page_kind", Value.str "index")] rfl rfl).1⟩

/-- C4: set-context pairs are held per source file: preparing one path never
touches the contexts stored for a different path, and the prepared path's
stored contexts are exactly the pairs collected while parsing that file. -/
theorem c4_set_contexts_kept_separately (env : Env) (s : State)
    (a b : FPath) (hne : ¬ a = b) :
    lookupD a (prepare env s b).host.contexts = lookupD a s.host.contexts ∧
    (lookupD b s.pending = Option.none →
      (lookupD b (prepare env s b).host.contexts).getD [] =
        collectSetContexts (env.parse (env.readFile b)).2) := by
  constructor
  · rcases hb : lookupD b s.pending with _ | pr
    · rw [prepare_eq_body env s b hb]
      exact prepareHost_contexts_ne s.host b (env.targetPath b) _ _ _ a
        (fun e => hne e.symm)
    · rw [prepare_eq_of_pending env s b pr hb]
  · intro hb
    rw [prepare_eq_body env s b hb]
    rw [prepareHost_contexts_self s.host b (env.targetPath b) _ _ _]
    exact dictOfPairs_self _ (by
      rw [collectSetContexts_eq_dictOfPairs]
      exact keysNodup_dictOfPairs _)

/-- C4 witness: preparing `a.html` does not touch `b.html`'s contexts, and
stores exactly the parsed `setcontext` pairs for `a.html`. -/
theorem c4_witness :
    ¬ ("b.html" : FPath) = "a.html" ∧
    (lookupD "b.html"
        (prepare testEnv initState "a.html").host.contexts =
      lookupD "b.html" initState.host.contexts) ∧
    (lookupD "a.html" initState.pending = Option.none →
      (lookupD "a.html"
          (prepare testEnv initState "a.html").host.contexts).getD [] =
        collectSetContexts (testEnv.parse (testEnv.readFile "a.html")).2) :=
  ⟨by decide,
   (c4_set_contexts_kept_separately testEnv initState "b.html" "a.html"
     (by decide)).1,
   (c4_set_contexts_kept_separately testEnv initState "b.html" "a.html"
     (by decide)).2⟩

/-- C5: the pending-generation map holds at most one record per file
(key uniqueness is preserved by both operations), `prepare` inserts at most
the one entry for its own path, and after `generate(path)` the path is no
longer pending. -/
theorem c5_pending_map_invariants (env : Env) (s : State) (path q : FPath)
    (hnd : keysNodup s.pending) (hq : ¬ q = path) :
    keysNodup (prepare env s path).pending ∧
    keysNodup (generate env s path).pending ∧
    lookupD q (prepare env s path).pending = lookupD q s.pending ∧
    lookupD path (generate env s path).pending = Option.none := by
  have hprep : keysNodup (prepare env s path).pending ∧
      lookupD q (prepare env s path).pending = lookupD q s.pending := by
    rcases hp : lookupD path s.pending with _ | pr
    · rw [prepare_eq_body env s path hp]
      dsimp only
      constructor
      · split_ifs
        · exact hnd
        · exact keysNodup_dictSet _ _ hnd
      · split_ifs
        · rfl
        · rw [lookupD_dictSet, if_neg (fun e => hq e.symm)]
    · rw [prepare_eq_of_pending env s path pr hp]
      exact ⟨hnd, rfl⟩
  have hgen : keysNodup (generate env s path).pending ∧
      lookupD path (generate env s path).pending = Option.none := by
    rcases hp : lookupD path s.pending with _ | pr
    · rw [generate_eq_of_not_pending env s path hp]
      exact ⟨hnd, hp⟩
    · obtain ⟨t, a⟩ := pr
      rw [generate_eq_of_pending env s path t a hp]
      dsimp only
      exact ⟨keysNodup_dictRemove _ hnd, by rw [lookupD_dictRemove, if_pos rfl]⟩
  exact ⟨hprep.1, hgen.1, hprep.2, hgen.2⟩

/-- C5 witness. -/
theorem c5_witness :
    keysNodup initState.pending ∧
    ¬ ("b.html" : FPath) = "a.html" ∧
    lookupD "b.html" (prepare testEnv initState "a.html").pending =
      lookupD "b.html" initState.pending ∧
    lookupD "a.html" (generate testEnv initState "a.html").pending =
      Option.none :=
  ⟨by decide, by decide,
   (c5_pending_map_invariants testEnv initState "a.html" "b.html"
     (by decide) (by decide)).2.2.1,
   (c5_pending_map_invariants testEnv initState "a.html" "b.html"
     (by decide) (by decide)).2.2.2⟩

/-- C6: during `prepare` of a non-pending path, host calls are made in this
order: set the single target, set the referenced-template dependencies,
clear then re-add the context dependencies from the extracted context
requests, and remove then re-set the contexts from the pairs collected
during parsing. -/
theorem c6_prepare_registration_order (env : Env) (s : State) (path : FPath)
    (ast : Node) (calls : List (String × Value))
    (hp : lookupD path s.pending = Option.none)
    (hparse : env.parse (env.readFile path) = (ast, calls)) :
    (prepare env s path).trace =
      s.trace
        ++ [Event.setTargetsEv path [env.targetPath path],
            Event.setDepsEv path
              ((env.findReferencedTemplates ast).map env.sourcePath),
            Event.clearCtxDepsEv path]
        ++ (getContextRequests ast).map
            (fun r => Event.addCtxDepEv path r.1 r.2)
        ++ [Event.removeContextEv path]
        ++ (collectSetContexts calls).map
            (fun q => Event.setContextEv path q.1 q.2) := by
  rw [prepare_eq_body env s path hp]
  simp only [hparse]

/-- C6 witness. -/
theorem c6_witness :
    lookupD "a.html" initState.pending = Option.none ∧
    testEnv.parse (testEnv.readFile "a.html") =
      (testAst, [("page_kind", Value.str "index")]) ∧
    (prepare testEnv initState "a.html").trace =
      initState.trace
        ++ [Event.setTargetsEv "a.html" [testEnv.targetPath "a.html"],
            Event.setDepsEv "a.html"
              ((testEnv.findReferencedTemplates testAst).map
                testEnv.sourcePath),
            Event.clearCtxDepsEv "a.html"]
        ++ (getContextRequests testAst).map
            (fun r => Event.addCtxDepEv "a.html" r.1 r.2)
        ++ [Event.removeContextEv "a.html"]
        ++ (collectSetContexts [("page_kind", Value.str "index")]).map
            (fun q => Event.setContextEv "a.html" q.1 q.2) :=
  ⟨rfl, rfl, c6_prepare_registration_order testEnv initState "a.html"
    testAst [("page_kind", Value.str "index")] rfl rfl⟩

/-- C7: for a pending path, `generate(path)` renders the template with a
context holding the file's `urls`, `size` and `modified` (plus `url` when
the file has exactly one target), writes the rendered text to the recorded
target (after creating the target's parent directory), and removes the path
from the pending map. -/
theorem c7_generate_renders_writes_removes (env : Env) (s : State)
    (path target : FPath) (ast : Node) (src : Source)
    (hpend : lookupD path s.pending = some (target, ast))
    (hsrc : env.getSource path = some src) :
    lookupD target (generate env s path).fs =
      some (env.render (env.readFile path)
        ((if ((lookupD path s.host.targets).getD []).length = 1 then
            [("url", CtxVal.str ("/" ++ env.relativePath
              (((lookupD path s.host.targets).getD []).headD "")))]
          else [])
         ++ [("urls", CtxVal.strList
              (((lookupD path s.host.targets).getD []).map
                (fun t => "/" ++ env.relativePath t))),
             ("size", CtxVal.num src.size),
             ("modified", CtxVal.num src.modified)])) ∧
    (generate env s path).trace = s.trace
      ++ [Event.makedirsEv (env.dirname target),
          Event.writeFileEv target
            (env.render (env.readFile path) (buildContextDict env s path))] ∧
    lookupD path (generate env s path).pending = Option.none := by
  have hb : buildContextDict env s path =
      (if ((lookupD path s.host.targets).getD []).length = 1 then
          [("url", CtxVal.str ("/" ++ env.relativePath
            (((lookupD path s.host.targets).getD []).headD "")))]
        else [])
       ++ [("urls", CtxVal.strList
            (((lookupD path s.host.targets).getD []).map
              (fun t => "/" ++ env.relativePath t))),
           ("size", CtxVal.num src.size),
           ("modified", CtxVal.num src.modified)] := by
    unfold buildContextDict
    rw [hsrc]
  rw [generate_eq_of_pending env s path target ast hpend]
  dsimp only
  refine ⟨?_, rfl, ?_⟩
  · rw [lookupD_dictSet, if_pos rfl, hb]
  · rw [lookupD_dictRemove, if_pos rfl]

/-- C7 witness. -/
theorem c7_witness :
    lookupD "a.html" pendState.pending = some ("/out/a.html", testAst) ∧
    testEnv.getSource "a.html" = some ⟨10, 20⟩ ∧
    lookupD "a.html" (generate testEnv pendState "a.html").pending =
      Option.none :=
  ⟨rfl, rfl, (c7_generate_renders_writes_removes testEnv pendState "a.html"
    "/out/a.html" testAst ⟨10, 20⟩ rfl rfl).2.2⟩

/-- C8: when the parsed template assigns a truthy constant to
`template_only` (last constant assignment wins, as computed by
`_get_const_vars`), `prepare` still registers the file's metadata with the
host but does not make the path pending, so a subsequent `generate` writes
nothing. -/
theorem c8_template_only_skips_generation (env : Env) (s : State)
    (path : FPath) (v : Value)
    (hp : lookupD path s.pending = Option.none)
    (hto : lookupD "template_only"
      (getConstVars (env.parse (env.readFile path)).1) = some v)
    (htruthy : v.truthy = true) :
    lookupD path (prepare env s path).pending = Option.none ∧
    lookupD path (prepare env s path).host.targets =
      some [env.targetPath path] ∧
    generate env (prepare env s path) path = prepare env s path := by
  have hpend : lookupD path (prepare env s path).pending = Option.none := by
    rw [prepare_eq_body env s path hp]
    dsimp only
    rw [hto]
    simp [htruthy, hp]
  refine ⟨hpend, ?_, generate_eq_of_not_pending env _ path hpend⟩
  rw [prepare_eq_body env s path hp]
  exact prepareHost_targets_self s.host path (env.targetPath path) _ _ _

/-- C8 witness. -/
theorem c8_witness :
    lookupD "a.html" initState.pending = Option.none ∧
    lookupD "template_only"
      (getConstVars (testEnvTO.parse (testEnvTO.readFile "a.html")).1) =
      some (Value.bool true) ∧
    (Value.bool true).truthy = true ∧
    lookupD "a.html" (prepare testEnvTO initState "a.html").pending =
      Option.none :=
  ⟨rfl, rfl, rfl, (c8_template_only_skips_generation testEnvTO initState
    "a.html" (Value.bool true) rfl rfl rfl).1⟩
